import Mathlib

/-!
Verification of `kedro/framework/cli/pipeline.py`.

The filesystem is modelled as a tree: a node is either a regular file (its
byte content abstracted as a `String`) or a directory holding a list of
named children.  A path that may or may not exist is an `Option Node`.
`_sync_dirs`, `_copy_pipeline_tests`, `_copy_pipeline_configs`,
`delete_pipeline`'s nested-pipeline guard, `_assert_pkg_name_ok` and
`_split_on_last_dot` are embedded below, each next to a comment citing the
Python it translates.
-/

namespace KedroPipeline

/-- Node of the filesystem: a regular file with its content, or a
directory with an (ordered) list of named entries.  The order of a
directory's entries models the order `Path.iterdir()` yields them. -/
inductive Node where
  | file (data : String)
  | dir (entries : List (String × Node))

abbrev Entries := List (String × Node)

/-- Test `path.is_file()` for an entry known to exist. -/
def isFileNode : Node → Bool
  | .file _ => true
  | .dir _ => false

/-- Test `path.is_dir()` for an entry known to exist. -/
def isDirNode : Node → Bool
  | .file _ => false
  | .dir _ => true

/-- Children of a path: `list(p.iterdir())` when `p` is a directory,
`[]` when `p` is a file or does not exist. -/
def entriesOf : Option Node → Entries
  | some (.dir es) => es
  | _ => []

/-- Test `path.is_file()` on a possibly missing path. -/
def isFileOpt : Option Node → Bool
  | some (.file _) => true
  | _ => false

/-- Test `path.is_dir()` on a possibly missing path. -/
def isDirOpt : Option Node → Bool
  | some (.dir _) => true
  | _ => false

/-- Boolean membership of a name in a list of names (Python `in` on a
set of names). -/
def memb (n : String) : List String → Bool
  | [] => false
  | m :: r => if m = n then true else memb n r

/-- Look a name up among directory entries (the state of path
`dir / n`); `none` when absent. -/
def lookupName (n : String) : Entries → Option Node
  | [] => none
  | (m, c) :: es => if m = n then some c else lookupName n es

/-- State of the path `t / n`. -/
def childOf (t : Option Node) (n : String) : Option Node :=
  lookupName n (entriesOf t)

/-- Names of the entries. -/
def namesOf (es : Entries) : List String :=
  es.map Prod.fst

/-- `{f.name for f in existing if f.is_file()}` (pipeline.py line 336). -/
def fileNamesOf (es : Entries) : List String :=
  (es.filter (fun e => isFileNode e.2)).map Prod.fst

/-- `{f.name for f in existing if f.is_dir()}` (pipeline.py line 337). -/
def dirNamesOf (es : Entries) : List String :=
  (es.filter (fun e => isDirNode e.2)).map Prod.fst

/-- File-name set of a possibly missing target (empty when the target is
not a directory, matching `existing = [] if not target.is_dir()`). -/
def fileNames (t : Option Node) : List String :=
  fileNamesOf (entriesOf t)

/-- Directory-name set of a possibly missing target. -/
def dirNames (t : Option Node) : List String :=
  dirNamesOf (entriesOf t)

/-- Write child `c` at name `n`: replace the first entry named `n`, or
append a new entry when the name is absent. -/
def setChild : Entries → String → Node → Entries
  | [], n, c => [(n, c)]
  | (m, x) :: es, n, c => if m = n then (n, c) :: es else (m, x) :: setChild es n c

/-- Effect of `target.mkdir(exist_ok=True, parents=True)` on a target
that is not an existing file: create an empty directory if the path is
missing, keep it as is otherwise.  (Failure when the path or one of its
ancestors exists as a file is handled at the call site.) -/
def mkdirAt : Option Node → Option Node
  | none => some (.dir [])
  | t => t

/-- Reflect the state `child` of path `t / n` back into the state of
`t`: a recursive `_sync_dirs` call that created something implicitly
materialised `t` as a directory (its `mkdir(parents=True)` creates the
whole chain); a call that created nothing leaves `t` untouched. -/
def writeBack (t : Option Node) (n : String) (child : Option Node) : Option Node :=
  match child with
  | none => t
  | some c =>
    match t with
    | some (.dir es) => some (.dir (setChild es n c))
    | _ => some (.dir [(n, c)])

/-- Outcome of a `_sync_dirs` call: the new state of the target path and
whether the call returned normally (`ok = true`) or raised. -/
structure SyncOut where
  state : Option Node
  ok : Bool

/-- Fault oracle: `fault p = true` means the underlying I/O operation
directed at target path `p` (directory creation at `p`, or the byte copy
producing file `p`) raises.  `noFault` is the failure-free filesystem. -/
def noFault : List String → Bool := fun _ => false

/-- Loop of `_sync_dirs` (pipeline.py lines 335-370) over the `content`
items of one call frame.

`path` is the absolute target path of this frame, `ov` the `overwrite`
argument, `broken` records whether some strict ancestor of this frame's
target exists as a non-directory (in which case any `mkdir(parents=True)`
raises), and `exF` / `exD` are `existing_files` / `existing_folders`,
computed once per frame (lines 335-337) and never refreshed.

Per item `(n, it)` with `target_path = target / n`:
* rule 1 (lines 352-357): skip when
  `not overwrite and source_name in existing_files
   or source_path.is_file() and source_name in existing_folders`;
* rule 2 (lines 359-366): for a file, `target.mkdir(exist_ok=True,
  parents=True)` — which raises when `target` or an ancestor exists as a
  file, or on an injected fault at `path` — then
  `shutil.copyfile` — which raises on an injected fault at `path ++ [n]`;
  an exception propagates immediately (the partially mutated state is
  kept, later siblings are not processed);
* rule 3 (lines 367-370): for a directory, recurse with
  `_sync_dirs(source_path, target_path, prefix=new_prefix)` — note that
  `overwrite` is NOT forwarded, so the nested call runs with the default
  `overwrite=False`; an exception from the nested call propagates.
The `prefix` argument and the `click.echo` reporting are presentation
only and are not modelled. -/
def syncItems (fault : List String → Bool) :
    List String → Bool → Bool → List String → List String → Option Node → Entries → SyncOut
  | _, _, _, _, _, target, [] => ⟨target, true⟩
  | path, ov, broken, exF, exD, target, (n, it) :: rest =>
    if (!ov && memb n exF) || (isFileNode it && memb n exD) then
      syncItems fault path ov broken exF exD target rest
    else
      match it with
      | .file d =>
        if broken || isFileOpt target || fault path then ⟨target, false⟩
        else
          let t1 := mkdirAt target
          if fault (path ++ [n]) then ⟨t1, false⟩
          else syncItems fault path ov broken exF exD (some (.dir (setChild (entriesOf t1) n (.file d)))) rest
      | .dir cs =>
        let childT := childOf target n
        let r := syncItems fault (path ++ [n]) false (broken || isFileOpt target)
          (fileNames childT) (dirNames childT) childT cs
        let t2 := writeBack target n r.state
        if r.ok then syncItems fault path ov broken exF exD t2 rest else ⟨t2, false⟩
  termination_by _ _ _ _ _ _ es => sizeOf es
  decreasing_by all_goals (simp_wf <;> omega)

/-- `content` of a `_sync_dirs` call (pipeline.py lines 339-345): the
children of `source` when it is a directory, `[source]` itself when it
is a file (its own name is `srcName`), nothing when it does not exist. -/
def contentOf (srcName : String) : Option Node → Entries
  | some (.dir es) => es
  | some (.file d) => [(srcName, .file d)]
  | none => []

/-- `_sync_dirs(source, target, overwrite=overwrite)` (pipeline.py lines
320-370) under fault oracle `fault`.  `srcName` is `source.name`,
`source` and `target` are the states of the two paths. -/
def syncDirs (fault : List String → Bool) (srcName : String)
    (source target : Option Node) (overwrite : Bool) : SyncOut :=
  syncItems fault [] overwrite false (fileNames target) (dirNames target) target
    (contentOf srcName source)

mutual

/-- Well-formedness of a tree read from a real filesystem: the names in
every directory listing are pairwise distinct (`Path.iterdir()` cannot
yield two children with the same name). -/
def wfNode : Node → Bool
  | .file _ => true
  | .dir es => wfEntries es

/-- Well-formedness of a directory listing, see `wfNode`. -/
def wfEntries : Entries → Bool
  | [] => true
  | (n, c) :: r => !memb n (namesOf r) && wfNode c && wfEntries r

end

mutual

/-- Restriction of a source tree to the part `_sync_dirs` materialises in
an initially empty target: directories are created only on the way to an
actual file copy (`mkdir` happens just before `copyfile`, line 361), so
directories containing no file at any depth are dropped. -/
def pruneNode : Node → Option Node
  | .file d => some (.file d)
  | .dir es =>
    match pruneEntries es with
    | [] => none
    | es' => some (.dir es')

/-- Entry-list version of `pruneNode`. -/
def pruneEntries : Entries → Entries
  | [] => []
  | (n, c) :: r =>
    match pruneNode c with
    | none => pruneEntries r
    | some c' => (n, c') :: pruneEntries r

end

/-- Append freshly created entries to a target that is a directory or
still missing (a missing target stays missing when nothing was created). -/
def extendDir : Option Node → Entries → Option Node
  | none, [] => none
  | none, es => some (.dir es)
  | some (.dir acc), es => some (.dir (acc ++ es))
  | t, _ => t

/-! ### `_copy_pipeline_tests` / `_copy_pipeline_configs` (pipeline.py lines 396-413) -/

/-- Effect of `shutil.rmtree(p)`: removes the whole tree when `p` is a
directory; raises (`FileNotFoundError` / `NotADirectoryError`) without
removing anything when `p` is missing or a regular file.  Returns the new
state of `p` and whether the call returned normally. -/
def rmtree : Option Node → Option Node × Bool
  | some (.dir _) => (none, true)
  | other => (other, false)

/-- Outcome of one of the two copy helpers: final state of the scratch
source subtree, final state of the merge target, and whether the helper
returned normally. -/
structure CopyOut where
  scratch : Option Node
  target : Option Node
  ok : Bool

/-- `_copy_pipeline_tests(result_path, tests_target)` (pipeline.py lines
396-401): `_sync_dirs(tests_source, tests_target)` inside `try:`, with
`shutil.rmtree(tests_source)` in the `finally:` block, so the removal
runs whether or not the merge raised; the helper raises when the merge
raised or when `rmtree` itself raised.  `testsSource` is the state of
`result_path / "tests"`. -/
def copyPipelineTests (fault : List String → Bool)
    (testsSource testsTarget : Option Node) : CopyOut :=
  let r := syncDirs fault ("tests") testsSource testsTarget false
  let rm := rmtree testsSource
  ⟨rm.1, r.state, r.ok && rm.2⟩

/-- `_copy_pipeline_configs(result_path, conf_path, skip_config, env)`
(pipeline.py lines 404-413): when `skip_config` is false,
`_sync_dirs(config_source, conf_path / env)` inside `try:`; the
`finally:` block removes `config_source` in every case, including when
config copying was skipped.  `confEnvTarget` is the state of
`conf_path / env`. -/
def copyPipelineConfigs (fault : List String → Bool)
    (configSource confEnvTarget : Option Node) (skipConfig : Bool) : CopyOut :=
  let r := if skipConfig then (⟨confEnvTarget, true⟩ : SyncOut)
           else syncDirs fault ("config") configSource confEnvTarget false
  let rm := rmtree configSource
  ⟨rm.1, r.state, r.ok && rm.2⟩

/-! ### Nested-pipeline guard of `delete_pipeline` (pipeline.py lines 218-267) -/

/-- Does a file name end in `.py` (what `glob("**/*.py")` matches)? -/
def strEndsWithPy : List Char → Bool
  | ['.', 'p', 'y'] => true
  | _ :: r => strEndsWithPy r
  | [] => false

/-- Name matcher for `*.py`. -/
def isPyName (n : String) : Bool := strEndsWithPy n.data

mutual

/-- Does `d.glob("**/*.py")` match anything: a `.py`-named regular file
anywhere in the subtree of directory node `d` (pipeline.py line 242)? -/
def containsPy : Node → Bool
  | .file _ => false
  | .dir es => entriesContainPy es

/-- Entry-list version of `containsPy`. -/
def entriesContainPy : Entries → Bool
  | [] => false
  | (n, c) :: r => (isFileNode c && isPyName n) || containsPy c || entriesContainPy r

end

/-- The check of pipeline.py lines 240-248 for one `dir_to_delete`:
`glob("**/*/")` enumerates every descendant directory (depth at least 1)
and the inner loop looks for a `.py` file anywhere below it — equivalent
to: some immediate child directory contains a `.py` file at some depth. -/
def hasNestedPyEntries : Entries → Bool
  | [] => false
  | (_, c) :: r => (isDirNode c && containsPy c) || hasNestedPyEntries r

/-- Tree version of `hasNestedPyEntries`. -/
def hasNestedPy : Node → Bool
  | .file _ => false
  | .dir es => hasNestedPyEntries es

/-- `hasNestedPy` on a possibly missing path. -/
def hasNestedPyOpt : Option Node → Bool
  | some nd => hasNestedPy nd
  | none => false

/-- State of the parts of the project that `delete_pipeline` can touch:
the pipeline package directory (`pipeline_artifacts.pipeline_dir`), its
tests directory (`pipeline_artifacts.pipeline_tests`) and presence flags
for the four configuration file candidates
`parameters_{name}.yml`, `parameters/{name}.yml`, `catalog_{name}.yml`,
`catalog/{name}.yml` under `pipeline_artifacts.pipeline_conf`. -/
structure ProjState where
  pipelineDir : Option Node
  pipelineTests : Option Node
  confFiles : List Bool

/-- Outcome of `delete_pipeline`: new project state, and whether the
deletion was carried out (`ok = false` means a `KedroCliError` was
raised, or the user declined the confirmation). -/
structure DeleteOut where
  state : ProjState
  ok : Bool

/-- `delete_pipeline` from the artifact gathering on (pipeline.py lines
222-267).  The environment lookup, name validation and message printing
are not modelled; `yes` is the `-y` flag and `confirmAnswer` the answer
`click.confirm` would return when `yes` is not passed.  Mirrors the
order of the code: `files_to_delete` (lines 222-232, pure reads),
`dirs_to_delete` (lines 234-238, pure reads), the nested-pipeline guard
(lines 240-248, raises before any mutation), the not-found check (lines
250-251), the confirmation (lines 253-264), and only then
`_delete_artifacts` (line 266). -/
def deletePipeline (st : ProjState) (yes confirmAnswer : Bool) : DeleteOut :=
  let filesToDelete : List Bool := st.confFiles.filter (fun b => b)
  let dirsToDelete : List (Option Node) :=
    (if isDirOpt st.pipelineDir then [st.pipelineDir] else []) ++
    (if isDirOpt st.pipelineTests then [st.pipelineTests] else [])
  if dirsToDelete.any hasNestedPyOpt then ⟨st, false⟩
  else if filesToDelete.isEmpty && dirsToDelete.isEmpty then ⟨st, false⟩
  else if !(yes || confirmAnswer) then ⟨st, false⟩
  else
    ⟨⟨(if isDirOpt st.pipelineDir then none else st.pipelineDir),
      (if isDirOpt st.pipelineTests then none else st.pipelineTests),
      st.confFiles.map (fun _ => false)⟩, true⟩

/-! ### `_assert_pkg_name_ok` (pipeline.py lines 46-69)

Candidate names are modelled as `List Char`.  Python's `\w` is taken in
its ASCII reading (letters, digits, underscore), which is what the error
message and the spec describe. -/

/-- Is there a dot in the string? -/
def hasDot : List Char → Bool
  | [] => false
  | c :: r => if c = '.' then true else hasDot r

/-- `_split_on_last_dot(input_string)`: `input_string.rsplit(".", 1)`
returns two parts exactly when the string has a dot — the parts around
its last occurrence — and the function then returns them as a pair;
otherwise it returns `("", input_string)`. -/
def splitOnLastDot : List Char → List Char × List Char
  | [] => ([], [])
  | c :: rest =>
    if hasDot rest then
      (c :: (splitOnLastDot rest).1, (splitOnLastDot rest).2)
    else if c = '.' then ([], rest)
    else ([], c :: rest)

/-! ### Basic lemmas about the helpers -/

theorem memb_eq_true_iff (n : String) (l : List String) : memb n l = true ↔ n ∈ l := by
  induction l with
  | nil => simp [memb]
  | cons m r ih =>
    by_cases h : m = n
    · simp [memb, h]
    · have h' : ¬ (n = m) := fun hh => h hh.symm
      simp [memb, h, h', ih]

theorem lookupName_setChild_self (es : Entries) (n : String) (c : Node) :
    lookupName n (setChild es n c) = some c := by
  induction es with
  | nil => simp [setChild, lookupName]
  | cons e r ih =>
    obtain ⟨m, x⟩ := e
    by_cases h : m = n
    · simp [setChild, h, lookupName]
    · simp [setChild, h, lookupName, ih]

theorem lookupName_setChild_ne (es : Entries) (n m : String) (c : Node) (h : m ≠ n) :
    lookupName m (setChild es n c) = lookupName m es := by
  have h' : ¬ (n = m) := fun hh => h hh.symm
  induction es with
  | nil => simp [setChild, lookupName, h']
  | cons e r ih =>
    obtain ⟨k, x⟩ := e
    by_cases hk : k = n
    · subst hk
      simp [setChild, lookupName, h']
    · simp [setChild, hk, lookupName, ih]

theorem setChild_of_lookupName_none (es : Entries) (n : String) (c : Node)
    (h : lookupName n es = none) : setChild es n c = es ++ [(n, c)] := by
  induction es with
  | nil => simp [setChild]
  | cons e r ih =>
    obtain ⟨m, x⟩ := e
    by_cases hm : m = n
    · simp [lookupName, hm] at h
    · simp [lookupName, hm] at h
      simp [setChild, hm, ih h]

theorem lookupName_append (n : String) (l1 l2 : Entries) :
    lookupName n (l1 ++ l2) =
      (match lookupName n l1 with
        | some c => some c
        | none => lookupName n l2) := by
  induction l1 with
  | nil => simp [lookupName]
  | cons e r ih =>
    obtain ⟨m, x⟩ := e
    by_cases hm : m = n <;> simp [lookupName, hm, ih]

theorem childOf_mkdirAt (t : Option Node) (m : String) : childOf (mkdirAt t) m = childOf t m := by
  cases t with
  | none => simp [mkdirAt, childOf, entriesOf, lookupName]
  | some nd => cases nd <;> simp [mkdirAt]

theorem childOf_writeBack_ne (t : Option Node) (n m : String) (c : Option Node) (h : m ≠ n) :
    childOf (writeBack t n c) m = childOf t m := by
  have h' : ¬ (n = m) := fun hh => h hh.symm
  cases c with
  | none => simp [writeBack]
  | some c' =>
    cases t with
    | none => simp [writeBack, childOf, entriesOf, lookupName, h']
    | some nd =>
      cases nd with
      | file d => simp [writeBack, childOf, entriesOf, lookupName, h']
      | dir es => simp [writeBack, childOf, entriesOf, lookupName_setChild_ne es n m c' h]

theorem isFileOpt_writeBack (t : Option Node) (n : String) (c : Option Node)
    (h : isFileOpt t = false) : isFileOpt (writeBack t n c) = false := by
  cases c with
  | none => simpa [writeBack] using h
  | some c' =>
    cases t with
    | none => simp [writeBack, isFileOpt]
    | some nd => cases nd with
      | file d => simp [isFileOpt] at h
      | dir es => simp [writeBack, isFileOpt]

theorem memb_fileNamesOf_of_lookup_file (es : Entries) (m : String)
    (h : isFileOpt (lookupName m es) = true) : memb m (fileNamesOf es) = true := by
  induction es with
  | nil => simp [lookupName, isFileOpt] at h
  | cons e r ih =>
    obtain ⟨k, c⟩ := e
    by_cases hk : k = m
    · subst hk
      simp [lookupName] at h
      cases c with
      | file d => simp [fileNamesOf, isFileNode, memb]
      | dir cs => simp [isFileOpt] at h
    · simp [lookupName, hk] at h
      have h2 := ih h
      cases c with
      | file d => simpa [fileNamesOf, isFileNode, memb, hk] using h2
      | dir cs => simpa [fileNamesOf, isFileNode, memb, hk] using h2

theorem wfEntries_append (l1 l2 : Entries) (h : wfEntries (l1 ++ l2) = true) :
    wfEntries l1 = true ∧ wfEntries l2 = true ∧
      ∀ p ∈ l1, memb p.1 (namesOf l2) = false := by
  induction l1 with
  | nil => simpa [wfEntries] using h
  | cons e r ih =>
    obtain ⟨n, c⟩ := e
    rw [List.cons_append, wfEntries] at h
    simp only [Bool.and_eq_true, Bool.not_eq_true'] at h
    obtain ⟨⟨hn, hc⟩, hr⟩ := h
    obtain ⟨h1, h2, h3⟩ := ih hr
    refine ⟨?_, h2, ?_⟩
    · rw [wfEntries]
      simp only [Bool.and_eq_true, Bool.not_eq_true']
      refine ⟨⟨?_, hc⟩, h1⟩
      by_contra hmem
      rw [Bool.not_eq_false] at hmem
      rw [memb_eq_true_iff] at hmem
      have : memb n (namesOf (r ++ l2)) = true := by
        rw [memb_eq_true_iff]
        simp only [namesOf, List.map_append] at hmem ⊢
        exact List.mem_append_left _ hmem
      rw [this] at hn
      cases hn
    · intro p hp
      rcases List.mem_cons.mp hp with hp | hp
      · subst hp
        by_contra hmem
        rw [Bool.not_eq_false, memb_eq_true_iff] at hmem
        have hcontra : memb n (namesOf (r ++ l2)) = true := by
          rw [memb_eq_true_iff]
          simp only [namesOf, List.map_append]
          exact List.mem_append_right _ hmem
        rw [hcontra] at hn
        cases hn
      · exact h3 p hp

/-! Step equations for `syncItems`, used to drive proofs frame by frame. -/

theorem syncItems_nil (fault : List String → Bool) (path : List String) (ov broken : Bool)
    (exF exD : List String) (t : Option Node) :
    syncItems fault path ov broken exF exD t [] = ⟨t, true⟩ := by
  rw [syncItems.eq_def]

theorem syncItems_skip (fault : List String → Bool) (path : List String) (ov broken : Bool)
    (exF exD : List String) (t : Option Node) (n : String) (it : Node) (rest : Entries)
    (h : (!ov && memb n exF || isFileNode it && memb n exD) = true) :
    syncItems fault path ov broken exF exD t ((n, it) :: rest) =
      syncItems fault path ov broken exF exD t rest := by
  rw [syncItems.eq_def]
  simp [h]

theorem syncItems_file_mkdir_err (fault : List String → Bool) (path : List String)
    (ov broken : Bool) (exF exD : List String) (t : Option Node) (n d : String) (rest : Entries)
    (hsk : (!ov && memb n exF || isFileNode (.file d) && memb n exD) = false)
    (hmk : (broken || isFileOpt t || fault path) = true) :
    syncItems fault path ov broken exF exD t ((n, .file d) :: rest) = ⟨t, false⟩ := by
  rw [syncItems.eq_def]
  simp [hsk, hmk]

theorem syncItems_file_copy_err (fault : List String → Bool) (path : List String)
    (ov broken : Bool) (exF exD : List String) (t : Option Node) (n d : String) (rest : Entries)
    (hsk : (!ov && memb n exF || isFileNode (.file d) && memb n exD) = false)
    (hmk : (broken || isFileOpt t || fault path) = false)
    (hcp : fault (path ++ [n]) = true) :
    syncItems fault path ov broken exF exD t ((n, .file d) :: rest) = ⟨mkdirAt t, false⟩ := by
  rw [syncItems.eq_def]
  simp [hsk, hmk, hcp]

theorem syncItems_file_copy (fault : List String → Bool) (path : List String)
    (ov broken : Bool) (exF exD : List String) (t : Option Node) (n d : String) (rest : Entries)
    (hsk : (!ov && memb n exF || isFileNode (.file d) && memb n exD) = false)
    (hmk : (broken || isFileOpt t || fault path) = false)
    (hcp : fault (path ++ [n]) = false) :
    syncItems fault path ov broken exF exD t ((n, .file d) :: rest) =
      syncItems fault path ov broken exF exD
        (some (.dir (setChild (entriesOf (mkdirAt t)) n (.file d)))) rest := by
  rw [syncItems.eq_def]
  simp [hsk, hmk, hcp]

theorem syncItems_dir (fault : List String → Bool) (path : List String) (ov broken : Bool)
    (exF exD : List String) (t : Option Node) (n : String) (cs rest : Entries)
    (hsk : (!ov && memb n exF) = false) :
    syncItems fault path ov broken exF exD t ((n, .dir cs) :: rest) =
      (let r := syncItems fault (path ++ [n]) false (broken || isFileOpt t)
          (fileNames (childOf t n)) (dirNames (childOf t n)) (childOf t n) cs
       let t2 := writeBack t n r.state
       if r.ok then syncItems fault path ov broken exF exD t2 rest else ⟨t2, false⟩) := by
  rw [syncItems.eq_def]
  simp [hsk, isFileNode]

theorem syncItems_dir_ok (fault : List String → Bool) (path : List String) (ov broken : Bool)
    (exF exD : List String) (t : Option Node) (n : String) (cs rest : Entries)
    (hsk : (!ov && memb n exF) = false)
    (hok : (syncItems fault (path ++ [n]) false (broken || isFileOpt t)
      (fileNames (childOf t n)) (dirNames (childOf t n)) (childOf t n) cs).ok = true) :
    syncItems fault path ov broken exF exD t ((n, .dir cs) :: rest) =
      syncItems fault path ov broken exF exD
        (writeBack t n (syncItems fault (path ++ [n]) false (broken || isFileOpt t)
          (fileNames (childOf t n)) (dirNames (childOf t n)) (childOf t n) cs).state) rest := by
  rw [syncItems_dir _ _ _ _ _ _ _ _ _ _ hsk]
  simp only [hok, if_true]

theorem syncItems_dir_err (fault : List String → Bool) (path : List String) (ov broken : Bool)
    (exF exD : List String) (t : Option Node) (n : String) (cs rest : Entries)
    (hsk : (!ov && memb n exF) = false)
    (hok : (syncItems fault (path ++ [n]) false (broken || isFileOpt t)
      (fileNames (childOf t n)) (dirNames (childOf t n)) (childOf t n) cs).ok = false) :
    syncItems fault path ov broken exF exD t ((n, .dir cs) :: rest) =
      ⟨writeBack t n (syncItems fault (path ++ [n]) false (broken || isFileOpt t)
        (fileNames (childOf t n)) (dirNames (childOf t n)) (childOf t n) cs).state, false⟩ := by
  rw [syncItems_dir _ _ _ _ _ _ _ _ _ _ hsk]
  simp only [hok, if_false, Bool.false_eq_true]

/-- Sequential composition of the per-frame loop: processing `l1 ++ l2`
processes `l1`, and goes on with `l2` from the reached state only when
no exception was raised while on `l1`. -/
theorem syncItems_append (fault : List String → Bool) (path : List String)
    (ov broken : Bool) (exF exD : List String) (t : Option Node) (l1 l2 : Entries) :
    syncItems fault path ov broken exF exD t (l1 ++ l2) =
      (let r := syncItems fault path ov broken exF exD t l1
       if r.ok then syncItems fault path ov broken exF exD r.state l2 else r) := by
  induction l1 generalizing t with
  | nil => simp [syncItems_nil]
  | cons e r ih =>
    obtain ⟨n, it⟩ := e
    by_cases hskip : (!ov && memb n exF || isFileNode it && memb n exD) = true
    · rw [List.cons_append, syncItems_skip _ _ _ _ _ _ _ _ _ _ hskip,
        syncItems_skip _ _ _ _ _ _ _ _ _ _ hskip]
      exact ih t
    · have hsk := Bool.eq_false_iff.mpr hskip
      cases it with
      | file d =>
        by_cases hmk : (broken || isFileOpt t || fault path) = true
        · rw [List.cons_append, syncItems_file_mkdir_err _ _ _ _ _ _ _ _ _ _ hsk hmk,
            syncItems_file_mkdir_err _ _ _ _ _ _ _ _ _ _ hsk hmk]
          simp
        · have hmk' := Bool.eq_false_iff.mpr hmk
          by_cases hcp : fault (path ++ [n]) = true
          · rw [List.cons_append, syncItems_file_copy_err _ _ _ _ _ _ _ _ _ _ hsk hmk' hcp,
              syncItems_file_copy_err _ _ _ _ _ _ _ _ _ _ hsk hmk' hcp]
            simp
          · have hcp' := Bool.eq_false_iff.mpr hcp
            rw [List.cons_append, syncItems_file_copy _ _ _ _ _ _ _ _ _ _ hsk hmk' hcp',
              syncItems_file_copy _ _ _ _ _ _ _ _ _ _ hsk hmk' hcp']
            exact ih _
      | dir cs =>
        have hsk2 : (!ov && memb n exF) = false := by
          simpa [isFileNode] using hsk
        rw [List.cons_append, syncItems_dir _ _ _ _ _ _ _ _ _ _ hsk2,
          syncItems_dir _ _ _ _ _ _ _ _ _ _ hsk2]
        by_cases hok : (syncItems fault (path ++ [n]) false (broken || isFileOpt t)
            (fileNames (childOf t n)) (dirNames (childOf t n)) (childOf t n) cs).ok = true
        · simp only [hok, if_true]
          exact ih _
        · simp [hok]

/-- Preservation: when every item named `x` is protected by the first
skip disjunct (in particular when no item is named `x` at all, or when
`overwrite` is false and `x` is an existing target file name), the frame
leaves the target entry named `x` exactly as it was, whether or not an
exception occurs, and the target stays a directory. -/
theorem syncItems_preserves (fault : List String → Bool) (path : List String)
    (ov broken : Bool) (exF exD : List String) (es : Entries) (tes : Entries) (x : String)
    (hx : ∀ p ∈ es, p.1 = x → (!ov && memb x exF) = true) :
    ∃ tes', (syncItems fault path ov broken exF exD (some (.dir tes)) es).state = some (.dir tes') ∧
      lookupName x tes' = lookupName x tes := by
  induction es generalizing tes with
  | nil => exact ⟨tes, by rw [syncItems_nil], rfl⟩
  | cons e rest ih =>
    obtain ⟨n, it⟩ := e
    have ihx : ∀ p ∈ rest, p.1 = x → (!ov && memb x exF) = true :=
      fun p hp => hx p (List.mem_cons_of_mem _ hp)
    by_cases hskip : (!ov && memb n exF || isFileNode it && memb n exD) = true
    · rw [syncItems_skip _ _ _ _ _ _ _ _ _ _ hskip]
      exact ih tes ihx
    · have hsk := Bool.eq_false_iff.mpr hskip
      have hnx : n ≠ x := by
        intro hnx
        subst hnx
        have := hx (n, it) (List.mem_cons_self _ _) rfl
        rw [Bool.or_eq_false_iff] at hsk
        rw [this] at hsk
        cases hsk.1
      cases it with
      | file d =>
        by_cases hmk : (broken || isFileOpt (some (Node.dir tes)) || fault path) = true
        · rw [syncItems_file_mkdir_err _ _ _ _ _ _ _ _ _ _ hsk hmk]
          exact ⟨tes, rfl, rfl⟩
        · have hmk' := Bool.eq_false_iff.mpr hmk
          by_cases hcp : fault (path ++ [n]) = true
          · rw [syncItems_file_copy_err _ _ _ _ _ _ _ _ _ _ hsk hmk' hcp]
            exact ⟨tes, by simp [mkdirAt], rfl⟩
          · have hcp' := Bool.eq_false_iff.mpr hcp
            rw [syncItems_file_copy _ _ _ _ _ _ _ _ _ _ hsk hmk' hcp']
            have hmd : setChild (entriesOf (mkdirAt (some (Node.dir tes)))) n (Node.file d) =
                setChild tes n (Node.file d) := by simp [mkdirAt, entriesOf]
            rw [hmd]
            obtain ⟨tes', h1, h2⟩ := ih (setChild tes n (.file d)) ihx
            exact ⟨tes', h1, by rw [h2, lookupName_setChild_ne _ _ _ _ hnx.symm]⟩
      | dir cs =>
        have hsk2 : (!ov && memb n exF) = false := by
          rw [Bool.or_eq_false_iff] at hsk
          exact hsk.1
        rw [syncItems_dir _ _ _ _ _ _ _ _ _ _ hsk2]
        simp only []
        set r := syncItems fault (path ++ [n]) false (broken || isFileOpt (some (Node.dir tes)))
          (fileNames (childOf (some (Node.dir tes)) n)) (dirNames (childOf (some (Node.dir tes)) n))
          (childOf (some (Node.dir tes)) n) cs with hr
        have hwb : ∃ tes2, writeBack (some (Node.dir tes)) n r.state = some (.dir tes2) ∧
            lookupName x tes2 = lookupName x tes := by
          cases hrs : r.state with
          | none => exact ⟨tes, by simp [writeBack], rfl⟩
          | some c =>
            refine ⟨setChild tes n c, by simp [writeBack], ?_⟩
            rw [lookupName_setChild_ne _ _ _ _ hnx.symm]
        obtain ⟨tes2, hwb1, hwb2⟩ := hwb
        by_cases hok : r.ok = true
        · simp only [hok, if_true, hwb1]
          obtain ⟨tes', h1, h2⟩ := ih tes2 ihx
          exact ⟨tes', h1, by rw [h2, hwb2]⟩
        · simp only [hok, if_false, Bool.false_eq_true]
          exact ⟨tes2, by simpa using hwb1, hwb2⟩

theorem wfEntries_cons (n : String) (c : Node) (rest : Entries) :
    wfEntries ((n, c) :: rest) = true ↔
      (memb n (namesOf rest) = false ∧ wfNode c = true ∧ wfEntries rest = true) := by
  rw [wfEntries]
  simp [Bool.and_eq_true, Bool.not_eq_true', and_assoc]

theorem ne_of_wf_head (n : String) (rest : Entries) (p : String × Node)
    (hn : memb n (namesOf rest) = false) (hp : p ∈ rest) : p.1 ≠ n := by
  intro he
  have : n ∈ namesOf rest := by
    rw [← he]
    exact List.mem_map_of_mem Prod.fst hp
  rw [(memb_eq_true_iff n (namesOf rest)).mpr this] at hn
  cases hn

/-- With a failure-free filesystem, a call frame returns normally
provided its target is not an existing file, no ancestor of the target
exists as a non-directory, the source listing is well-formed, and every
source-directory-over-target-file collision is caught by the first skip
disjunct (which is automatic for `overwrite=False` frames whose
`existing_files` set belongs to the frame's own target).  The final
target of such a frame is never a file. -/
theorem syncItems_noFault_ok (path : List String) (ov broken : Bool)
    (exF exD : List String) (t : Option Node) (es : Entries) :
    broken = false → isFileOpt t = false → wfEntries es = true →
    (∀ p ∈ es, isDirNode p.2 = true → isFileOpt (childOf t p.1) = true →
      (!ov && memb p.1 exF) = true) →
    (syncItems noFault path ov broken exF exD t es).ok = true ∧
      isFileOpt (syncItems noFault path ov broken exF exD t es).state = false := by
  induction path, ov, broken, exF, exD, t, es using syncItems.induct noFault with
  | case1 path ov broken exF exD t =>
    intro _ hft _ _
    rw [syncItems_nil]
    exact ⟨rfl, hft⟩
  | case2 path ov broken exF exD t n it rest hskip ih =>
    intro hb hft hwf hcol
    rw [syncItems_skip _ _ _ _ _ _ _ _ _ _ hskip]
    obtain ⟨-, -, hwfr⟩ := (wfEntries_cons _ _ _).mp hwf
    exact ih hb hft hwfr (fun p hp => hcol p (List.mem_cons_of_mem _ hp))
  | case3 path ov broken exF exD t n rest d hmk hskip =>
    intro hb hft _ _
    subst hb
    simp [hft, noFault] at hmk
  | case4 path ov broken exF exD t n rest d hmk hcp hskip =>
    intro _ _ _ _
    simp [noFault] at hcp
  | case5 path ov broken exF exD t n rest d hmk t1 hcp hskip ih =>
    intro hb hft hwf hcol
    have hsk := Bool.eq_false_iff.mpr hskip
    have hmk' := Bool.eq_false_iff.mpr hmk
    have hcp' := Bool.eq_false_iff.mpr hcp
    rw [syncItems_file_copy _ _ _ _ _ _ _ _ _ _ hsk hmk' hcp']
    obtain ⟨hn, -, hwfr⟩ := (wfEntries_cons _ _ _).mp hwf
    refine ih hb (by simp [isFileOpt]) hwfr ?_
    intro p hp hpd hpf
    have hne : p.1 ≠ n := ne_of_wf_head n rest p hn hp
    have hch : childOf (some (Node.dir (setChild (entriesOf (mkdirAt t)) n (Node.file d)))) p.1
        = childOf t p.1 := by
      have h1 : childOf (some (Node.dir (setChild (entriesOf (mkdirAt t)) n (Node.file d)))) p.1
          = lookupName p.1 (setChild (entriesOf (mkdirAt t)) n (Node.file d)) := rfl
      rw [h1, lookupName_setChild_ne _ _ _ _ hne, ← childOf_mkdirAt t p.1]
      rfl
    rw [hch] at hpf
    exact hcol p (List.mem_cons_of_mem _ hp) hpd hpf
  | case6 path ov broken exF exD t n rest cs childT r t2 hok hskip ih1 ih2 ih3 =>
    intro hb hft hwf hcol
    have hsk := Bool.eq_false_iff.mpr hskip
    have hsk2 : (!ov && memb n exF) = false := by
      rw [Bool.or_eq_false_iff] at hsk
      exact hsk.1
    have hok2 : (syncItems noFault (path ++ [n]) false (broken || isFileOpt t)
        (fileNames (childOf t n)) (dirNames (childOf t n)) (childOf t n) cs).ok = true := hok
    rw [syncItems_dir_ok _ _ _ _ _ _ _ _ _ _ hsk2 hok2]
    obtain ⟨hn, hwfc, hwfr⟩ := (wfEntries_cons _ _ _).mp hwf
    refine ih3 hb (isFileOpt_writeBack _ _ _ hft) hwfr ?_
    intro p hp hpd hpf
    have hne : p.1 ≠ n := ne_of_wf_head n rest p hn hp
    rw [childOf_writeBack_ne _ _ _ _ hne] at hpf
    exact hcol p (List.mem_cons_of_mem _ hp) hpd hpf
  | case7 path ov broken exF exD t n rest cs childT r hnok hskip ih1 =>
    intro hb hft hwf hcol
    exfalso
    have hsk := Bool.eq_false_iff.mpr hskip
    have hsk2 : (!ov && memb n exF) = false := by
      rw [Bool.or_eq_false_iff] at hsk
      exact hsk.1
    obtain ⟨hn, hwfc, hwfr⟩ := (wfEntries_cons _ _ _).mp hwf
    have hbroken2 : (broken || isFileOpt t) = false := by
      rw [hb, hft]
      rfl
    have hchf : isFileOpt (childOf t n) = false := by
      by_contra hc
      rw [Bool.not_eq_false] at hc
      have := hcol (n, .dir cs) (List.mem_cons_self _ _) rfl hc
      rw [this] at hsk2
      cases hsk2
    have hwfcs : wfEntries cs = true := by
      rw [wfNode] at hwfc
      exact hwfc
    have hchild := ih1 (by rw [hbroken2]) hchf hwfcs
      (fun p _ hpd hpf => by
        rw [Bool.not_false, Bool.true_and]
        exact memb_fileNamesOf_of_lookup_file _ _ hpf)
    exact hnok hchild.1

theorem memb_cons_of (m k : String) (l : List String) (h : memb m l = true) :
    memb m (k :: l) = true := by
  by_cases hk : k = m <;> simp [memb, hk, h]

theorem namesOf_cons (n : String) (c : Node) (r : Entries) :
    namesOf ((n, c) :: r) = n :: namesOf r := rfl

/-- Filling a fresh area: a frame whose `existing_files`/`existing_folders`
sets are empty and whose target has no entry named like any source item
copies exactly the file-carrying part of the source (`pruneEntries`),
appending it to whatever the target already held, and returns normally. -/
theorem syncItems_fresh (path : List String) (ov broken : Bool)
    (exF exD : List String) (t : Option Node) (es : Entries) :
    broken = false → exF = [] → exD = [] → isFileOpt t = false → wfEntries es = true →
    (∀ m, memb m (namesOf es) = true → childOf t m = none) →
    syncItems noFault path ov broken exF exD t es = ⟨extendDir t (pruneEntries es), true⟩ := by
  induction path, ov, broken, exF, exD, t, es using syncItems.induct noFault with
  | case1 path ov broken exF exD t =>
    intro _ _ _ hft _ _
    rw [syncItems_nil, pruneEntries]
    cases t with
    | none => rfl
    | some nd =>
      cases nd with
      | file d => simp [isFileOpt] at hft
      | dir acc => simp [extendDir]
  | case2 path ov broken exF exD t n it rest hskip ih =>
    intro _ hF hD _ _ _
    subst hF
    subst hD
    simp [memb] at hskip
  | case3 path ov broken exF exD t n rest d hmk hskip =>
    intro hb hF hD hft _ _
    subst hb
    simp [hft, noFault] at hmk
  | case4 path ov broken exF exD t n rest d hmk hcp hskip =>
    intro _ _ _ _ _ _
    simp [noFault] at hcp
  | case5 path ov broken exF exD t n rest d hmk t1 hcp hskip ih =>
    intro hb hF hD hft hwf hfresh
    have hsk := Bool.eq_false_iff.mpr hskip
    have hmk' := Bool.eq_false_iff.mpr hmk
    have hcp' := Bool.eq_false_iff.mpr hcp
    rw [syncItems_file_copy _ _ _ _ _ _ _ _ _ _ hsk hmk' hcp']
    obtain ⟨hn, -, hwfr⟩ := (wfEntries_cons _ _ _).mp hwf
    have hchn : childOf t n = none :=
      hfresh n (by rw [namesOf_cons]; simp [memb])
    have hlk : lookupName n (entriesOf (mkdirAt t)) = none := by
      have h2 : lookupName n (entriesOf (mkdirAt t)) = childOf (mkdirAt t) n := rfl
      rw [h2, childOf_mkdirAt]
      exact hchn
    have hset : setChild (entriesOf (mkdirAt t)) n (Node.file d) =
        entriesOf (mkdirAt t) ++ [(n, Node.file d)] :=
      setChild_of_lookupName_none _ _ _ hlk
    refine Eq.trans (ih hb hF hD (by simp [isFileOpt]) hwfr ?hfreshr) ?hfinal
    case hfreshr =>
      intro m hm
      show childOf (some (Node.dir (setChild (entriesOf (mkdirAt t)) n (Node.file d)))) m = none
      have hmn : m ≠ n := by
        intro he
        subst he
        rw [hm] at hn
        cases hn
      have h1 : childOf (some (Node.dir (setChild (entriesOf (mkdirAt t)) n (Node.file d)))) m
          = lookupName m (setChild (entriesOf (mkdirAt t)) n (Node.file d)) := rfl
      rw [h1, lookupName_setChild_ne _ _ _ _ hmn]
      have h2 : lookupName m (entriesOf (mkdirAt t)) = childOf (mkdirAt t) m := rfl
      rw [h2, childOf_mkdirAt]
      exact hfresh m (by rw [namesOf_cons]; exact memb_cons_of _ _ _ hm)
    case hfinal =>
      show (⟨extendDir (some (Node.dir (setChild (entriesOf (mkdirAt t)) n (Node.file d))))
        (pruneEntries rest), true⟩ : SyncOut) = _
      have hprune : pruneEntries ((n, Node.file d) :: rest) =
          (n, Node.file d) :: pruneEntries rest := by
        rw [pruneEntries, pruneNode]
      rw [hset, hprune]
      cases t with
      | none => simp [mkdirAt, entriesOf, extendDir]
      | some nd =>
        cases nd with
        | file df => simp [isFileOpt] at hft
        | dir acc =>
          simp only [mkdirAt, entriesOf, extendDir]
          rw [List.append_assoc]
          rfl
  | case6 path ov broken exF exD t n rest cs childT r t2 hok hskip ih1 ih2 ih3 =>
    intro hb hF hD hft hwf hfresh
    have hsk := Bool.eq_false_iff.mpr hskip
    have hsk2 : (!ov && memb n exF) = false := by
      rw [Bool.or_eq_false_iff] at hsk
      exact hsk.1
    obtain ⟨hn, hwfc, hwfr⟩ := (wfEntries_cons _ _ _).mp hwf
    have hchn : childOf t n = none :=
      hfresh n (by rw [namesOf_cons]; simp [memb])
    have hbroken2 : (broken || isFileOpt t) = false := by
      rw [hb, hft]
      rfl
    have hwfcs : wfEntries cs = true := by
      rw [wfNode] at hwfc
      exact hwfc
    have hr : syncItems noFault (path ++ [n]) false (broken || isFileOpt t)
        (fileNames (childOf t n)) (dirNames (childOf t n)) (childOf t n) cs =
        ⟨extendDir (childOf t n) (pruneEntries cs), true⟩ := by
      refine ih1 (by rw [hbroken2]) ?_ ?_ ?_ hwfcs ?_
      · show fileNames (childOf t n) = []
        rw [hchn]
        rfl
      · show dirNames (childOf t n) = []
        rw [hchn]
        rfl
      · show isFileOpt (childOf t n) = false
        rw [hchn]
        rfl
      · intro m _
        show childOf (childOf t n) m = none
        rw [hchn]
        rfl
    have hok2 : (syncItems noFault (path ++ [n]) false (broken || isFileOpt t)
        (fileNames (childOf t n)) (dirNames (childOf t n)) (childOf t n) cs).ok = true := by
      rw [hr]
    rw [syncItems_dir_ok _ _ _ _ _ _ _ _ _ _ hsk2 hok2]
    have hmn : ∀ m, memb m (namesOf rest) = true → m ≠ n := by
      intro m hm he
      subst he
      rw [hm] at hn
      cases hn
    have ihr2 : syncItems noFault path ov broken exF exD
        (writeBack t n (syncItems noFault (path ++ [n]) false (broken || isFileOpt t)
          (fileNames (childOf t n)) (dirNames (childOf t n)) (childOf t n) cs).state) rest =
        ⟨extendDir (writeBack t n (syncItems noFault (path ++ [n]) false (broken || isFileOpt t)
          (fileNames (childOf t n)) (dirNames (childOf t n)) (childOf t n) cs).state)
          (pruneEntries rest), true⟩ := by
      refine ih3 hb hF hD ?_ hwfr ?_
      · show isFileOpt (writeBack t n (syncItems noFault (path ++ [n]) false
          (broken || isFileOpt t) (fileNames (childOf t n)) (dirNames (childOf t n))
          (childOf t n) cs).state) = false
        exact isFileOpt_writeBack _ _ _ hft
      · intro m hm
        show childOf (writeBack t n (syncItems noFault (path ++ [n]) false
          (broken || isFileOpt t) (fileNames (childOf t n)) (dirNames (childOf t n))
          (childOf t n) cs).state) m = none
        rw [childOf_writeBack_ne _ _ _ _ (hmn m hm)]
        exact hfresh m (by rw [namesOf_cons]; exact memb_cons_of _ _ _ hm)
    rw [ihr2]
    have hrs : (syncItems noFault (path ++ [n]) false (broken || isFileOpt t)
        (fileNames (childOf t n)) (dirNames (childOf t n)) (childOf t n) cs).state =
        extendDir (childOf t n) (pruneEntries cs) := by
      rw [hr]
    rw [hrs]
    have hgoal : extendDir (writeBack t n (extendDir (childOf t n) (pruneEntries cs)))
        (pruneEntries rest) = extendDir t (pruneEntries ((n, Node.dir cs) :: rest)) := by
      rw [hchn]
      cases hpc : pruneEntries cs with
      | nil =>
        have hprune : pruneEntries ((n, Node.dir cs) :: rest) = pruneEntries rest := by
          rw [pruneEntries, pruneNode, hpc]
        rw [hprune]
        rfl
      | cons e es2 =>
        have hprune : pruneEntries ((n, Node.dir cs) :: rest) =
            (n, Node.dir (pruneEntries cs)) :: pruneEntries rest := by
          rw [pruneEntries, pruneNode, hpc]
        rw [hprune, hpc]
        cases t with
        | none => simp [extendDir, writeBack]
        | some nd =>
          cases nd with
          | file df => simp [isFileOpt] at hft
          | dir acc =>
            have hlkn : lookupName n acc = none := hchn
            have hsc : setChild acc n (Node.dir (e :: es2)) = acc ++ [(n, Node.dir (e :: es2))] :=
              setChild_of_lookupName_none _ _ _ hlkn
            simp only [extendDir, writeBack, hsc]
            rw [List.append_assoc]
            rfl
    rw [hgoal]
  | case7 path ov broken exF exD t n rest cs childT r hnok hskip ih1 =>
    intro hb hF hD hft hwf hfresh
    exfalso
    obtain ⟨hn, hwfc, hwfr⟩ := (wfEntries_cons _ _ _).mp hwf
    have hchn : childOf t n = none :=
      hfresh n (by rw [namesOf_cons]; simp [memb])
    have hbroken2 : (broken || isFileOpt t) = false := by
      rw [hb, hft]
      rfl
    have hwfcs : wfEntries cs = true := by
      rw [wfNode] at hwfc
      exact hwfc
    have hr : syncItems noFault (path ++ [n]) false (broken || isFileOpt t)
        (fileNames (childOf t n)) (dirNames (childOf t n)) (childOf t n) cs =
        ⟨extendDir (childOf t n) (pruneEntries cs), true⟩ := by
      refine ih1 (by rw [hbroken2]) ?_ ?_ ?_ hwfcs ?_
      · show fileNames (childOf t n) = []
        rw [hchn]
        rfl
      · show dirNames (childOf t n) = []
        rw [hchn]
        rfl
      · show isFileOpt (childOf t n) = false
        rw [hchn]
        rfl
      · intro m _
        show childOf (childOf t n) m = none
        rw [hchn]
        rfl
    have hok2 : (syncItems noFault (path ++ [n]) false (broken || isFileOpt t)
        (fileNames (childOf t n)) (dirNames (childOf t n)) (childOf t n) cs).ok = true := by
      rw [hr]
    exact hnok hok2

/-- Overwriting run: in a fault-free `overwrite=True` frame over a
well-formed source listing containing the file item `f`, whose name is
not an existing target folder, and in which no source directory collides
with an existing target file, the frame returns normally and the target
ends with `f` bound to the source's bytes. -/
theorem syncItems_true_replaces (path : List String) (exF exD : List String)
    (es tes : Entries) (f newD : String)
    (hwf : wfEntries es = true)
    (hmem : (f, Node.file newD) ∈ es)
    (hfD : memb f exD = false)
    (hcol : ∀ p ∈ es, isDirNode p.2 = true →
      isFileOpt (childOf (some (.dir tes)) p.1) = false) :
    (syncItems noFault path true false exF exD (some (.dir tes)) es).ok = true ∧
    ∃ tes2, (syncItems noFault path true false exF exD (some (.dir tes)) es).state
        = some (.dir tes2) ∧ lookupName f tes2 = some (.file newD) := by
  have hok : (syncItems noFault path true false exF exD (some (.dir tes)) es).ok = true := by
    refine (syncItems_noFault_ok path true false exF exD (some (.dir tes)) es rfl rfl hwf ?_).1
    intro p hp hpd hpf
    rw [hcol p hp hpd] at hpf
    cases hpf
  refine ⟨hok, ?_⟩
  obtain ⟨pre, post, hsplit⟩ := List.append_of_mem hmem
  subst hsplit
  obtain ⟨hwfpre, hwfcons, hdisj⟩ := wfEntries_append _ _ hwf
  obtain ⟨hfpost, -, -⟩ := (wfEntries_cons _ _ _).mp hwfcons
  -- the items before `f` never touch the target entry named `f`
  have hxpre : ∀ p ∈ pre, p.1 = f → (!true && memb f exF) = true := by
    intro p hp hpf
    have := hdisj p hp
    rw [hpf] at this
    rw [namesOf_cons, memb] at this
    simp at this
  obtain ⟨tes1, hst1, hlk1⟩ := syncItems_preserves noFault path true false exF exD pre tes f hxpre
  -- the items before `f` are processed without error
  have hokpre : (syncItems noFault path true false exF exD (some (.dir tes)) pre).ok = true := by
    refine (syncItems_noFault_ok path true false exF exD (some (.dir tes)) pre rfl rfl hwfpre ?_).1
    intro p hp hpd hpf
    rw [hcol p (List.mem_append_left _ hp) hpd] at hpf
    cases hpf
  rw [syncItems_append]
  simp only [hokpre, if_true, hst1]
  -- `f` itself is copied: not skipped, mkdir trivially succeeds, no fault
  have hskf : (!true && memb f exF || isFileNode (.file newD) && memb f exD) = false := by
    simp [isFileNode, hfD]
  have hmkf : (false || isFileOpt (some (Node.dir tes1)) || noFault path) = false := by
    simp [isFileOpt, noFault]
  have hcpf : noFault (path ++ [f]) = false := rfl
  rw [syncItems_file_copy _ _ _ _ _ _ _ _ _ _ hskf hmkf hcpf]
  -- the items after `f` never touch it either
  have hxpost : ∀ p ∈ post, p.1 = f → (!true && memb f exF) = true := by
    intro p hp hpf
    have : memb f (namesOf post) = true := by
      rw [memb_eq_true_iff]
      rw [← hpf]
      exact List.mem_map_of_mem Prod.fst hp
    rw [this] at hfpost
    cases hfpost
  obtain ⟨tes3, hst3, hlk3⟩ := syncItems_preserves noFault path true false exF exD post
    (setChild (entriesOf (mkdirAt (some (Node.dir tes1)))) f (Node.file newD)) f hxpost
  refine ⟨tes3, hst3, ?_⟩
  rw [hlk3]
  have : setChild (entriesOf (mkdirAt (some (Node.dir tes1)))) f (Node.file newD)
      = setChild tes1 f (Node.file newD) := rfl
  rw [this, lookupName_setChild_self]

/-- C6: a source path that exists as neither a regular file nor a
directory makes `_sync_dirs` a no-op: the target is unchanged, nothing
is created, and no error is raised — for every target state, overwrite
flag and fault oracle. -/
theorem claim_C6 (fault : List String → Bool) (srcName : String)
    (target : Option Node) (ov : Bool) :
    syncDirs fault srcName none target ov = ⟨target, true⟩ := by
  rw [syncDirs]
  rw [contentOf]
  exact syncItems_nil _ _ _ _ _ _ _

/-- C8: after `_copy_pipeline_tests` and `_copy_pipeline_configs`, the
scratch source directory (the generated `tests/` resp. `config/` tree)
no longer exists — for every fault oracle (so both when the merge
returned normally and when it raised), and in the config case also when
config copying is skipped. -/
theorem claim_C8 (faultT faultC : List String → Bool)
    (testsSource testsTarget configSource confEnvTarget : Option Node) (skipConfig : Bool)
    (hts : isDirOpt testsSource = true) (hcs : isDirOpt configSource = true) :
    (copyPipelineTests faultT testsSource testsTarget).scratch = none ∧
    (copyPipelineConfigs faultC configSource confEnvTarget skipConfig).scratch = none := by
  constructor
  · cases testsSource with
    | none => simp [isDirOpt] at hts
    | some nd =>
      cases nd with
      | file d => simp [isDirOpt] at hts
      | dir es => rfl
  · cases configSource with
    | none => simp [isDirOpt] at hcs
    | some nd =>
      cases nd with
      | file d => simp [isDirOpt] at hcs
      | dir es => rfl

/-- Witness for C8 at a concrete scratch tree, exercising three runs: a
clean merge, a merge whose copy raises, and a skipped config copy — the
scratch is gone in each. -/
theorem claim_C8_witness :
    isDirOpt (some (.dir [(("t.py"), .file ("x"))])) = true ∧
    (copyPipelineTests noFault (some (.dir [(("t.py"), .file ("x"))])) none).scratch = none ∧
    (copyPipelineConfigs (fun p => decide (p = [("t.py")]))
      (some (.dir [(("t.py"), .file ("x"))])) none false).scratch = none ∧
    (copyPipelineConfigs noFault (some (.dir [(("t.py"), .file ("x"))])) none true).scratch = none := by
  refine ⟨by rfl, ?_, ?_, ?_⟩
  · exact (claim_C8 noFault noFault (some (.dir [(("t.py"), .file ("x"))])) none
      (some (.dir [])) none false (by rfl) (by rfl)).1
  · exact (claim_C8 noFault (fun p => decide (p = [("t.py")]))
      (some (.dir [])) none (some (.dir [(("t.py"), .file ("x"))])) none false (by rfl) (by rfl)).2
  · exact (claim_C8 noFault noFault (some (.dir [])) none
      (some (.dir [(("t.py"), .file ("x"))])) none true (by rfl) (by rfl)).2

/-- C9: when the pipeline directory or its tests directory contains a
`.py` file inside a nested subdirectory, `delete_pipeline` raises the
consistency error before deleting anything: the project state is
returned unchanged, whatever the `-y` flag or the confirmation answer. -/
theorem claim_C9 (st : ProjState) (yes confirmAnswer : Bool)
    (h : hasNestedPyOpt st.pipelineDir = true ∨ hasNestedPyOpt st.pipelineTests = true) :
    deletePipeline st yes confirmAnswer = ⟨st, false⟩ := by
  have hdirOf : ∀ x : Option Node, hasNestedPyOpt x = true → isDirOpt x = true := by
    intro x hx
    cases x with
    | none => simp [hasNestedPyOpt] at hx
    | some nd =>
      cases nd with
      | file d => simp [hasNestedPyOpt, hasNestedPy] at hx
      | dir es => rfl
  have hany : ((if isDirOpt st.pipelineDir then [st.pipelineDir] else []) ++
      (if isDirOpt st.pipelineTests then [st.pipelineTests] else [])).any hasNestedPyOpt = true := by
    rcases h with h | h
    · rw [hdirOf _ h]
      simp [h]
    · rw [hdirOf _ h]
      simp [h]
  rw [deletePipeline]
  simp only [hany, if_true]

/-- Witness for C9: a pipeline directory holding `sub/nodes.py` aborts
the deletion with no mutation. -/
theorem claim_C9_witness :
    (hasNestedPyOpt (some (.dir [(("sub"), .dir [(("nodes.py"), .file ("x"))])])) = true ∨
      hasNestedPyOpt (none : Option Node) = true) ∧
    deletePipeline ⟨some (.dir [(("sub"), .dir [(("nodes.py"), .file ("x"))])]), none, [true]⟩
        true true =
      ⟨⟨some (.dir [(("sub"), .dir [(("nodes.py"), .file ("x"))])]), none, [true]⟩, false⟩ := by
  constructor
  · left
    rfl
  · exact claim_C9 ⟨some (.dir [(("sub"), .dir [(("nodes.py"), .file ("x"))])]), none, [true]⟩
      true true (Or.inl (by rfl))

/-- C10: `_split_on_last_dot` returns `("", s)` when `s` has no dot, and
otherwise a pair whose second component is dot-free and which
reassembles to `s` around a dot — i.e. the split happens at the last
dot. -/
theorem claim_C10 (s : List Char) :
    (('.') ∉ s → splitOnLastDot s = ([], s)) ∧
    (('.') ∈ s → ('.') ∉ (splitOnLastDot s).2 ∧
      (splitOnLastDot s).1 ++ ('.') :: (splitOnLastDot s).2 = s) := by
  have hdot : ∀ l : List Char, hasDot l = true ↔ ('.') ∈ l := by
    intro l
    induction l with
    | nil => simp [hasDot]
    | cons c r ih =>
      by_cases hc : c = '.'
      · subst hc
        simp [hasDot]
      · have hc' : ¬ ('.' = c) := fun hh => hc hh.symm
        simp [hasDot, hc, hc', ih]
  induction s with
  | nil =>
    constructor
    · intro _
      rfl
    · intro h
      cases h
  | cons c rest ih =>
    by_cases hr : hasDot rest = true
    · have hrmem : ('.') ∈ rest := (hdot rest).mp hr
      constructor
      · intro hno
        exact absurd (List.mem_cons_of_mem c hrmem) hno
      · intro _
        rw [splitOnLastDot]
        simp only [hr, if_true]
        obtain ⟨ih2a, ih2b⟩ := ih.2 hrmem
        exact ⟨ih2a, by rw [List.cons_append, ih2b]⟩
    · have hrmem : ('.') ∉ rest := fun hm => hr ((hdot rest).mpr hm)
      by_cases hc : c = '.'
      · subst hc
        constructor
        · intro hno
          exact absurd (List.mem_cons_self _ _) hno
        · intro _
          rw [splitOnLastDot]
          simp only [hr, if_false, if_true, Bool.false_eq_true]
          exact ⟨hrmem, rfl⟩
      · constructor
        · intro _
          rw [splitOnLastDot]
          simp [hr, hc]
        · intro hmem
          rcases List.mem_cons.mp hmem with hm | hm
          · exact absurd hm.symm hc
          · exact absurd hm hrmem

/-- Witness for C10 on `"path.to.pipeline"`-like input `"a.b.c"` (dot
present) and on `"abc"` (no dot). -/
theorem claim_C10_witness :
    (('.') ∈ [('a'), ('.'), ('b'), ('.'), ('c')] ∧
      ('.') ∉ (splitOnLastDot [('a'), ('.'), ('b'), ('.'), ('c')]).2 ∧
      (splitOnLastDot [('a'), ('.'), ('b'), ('.'), ('c')]).1 ++
        ('.') :: (splitOnLastDot [('a'), ('.'), ('b'), ('.'), ('c')]).2 =
        [('a'), ('.'), ('b'), ('.'), ('c')]) ∧
    (('.') ∉ [('a'), ('b'), ('c')] ∧
      splitOnLastDot [('a'), ('b'), ('c')] = ([], [('a'), ('b'), ('c')])) := by
  constructor
  · refine ⟨by decide, (claim_C10 [('a'), ('.'), ('b'), ('.'), ('c')]).2 (by decide)⟩
  · exact ⟨by decide, (claim_C10 [('a'), ('b'), ('c')]).1 (by decide)⟩

/-- Counterexample to C1: with `overwrite=False`, a source directory
`d` (holding `f`) whose name collides with an existing target *file*
`d` is skipped by rule 1 — the call returns the target untouched and
never recurses; the second conjunct shows that the first skip disjunct
fired for the directory item. -/
theorem claim_C1_counterexample :
    syncDirs noFault ("d") (some (.dir [(("d"), .dir [(("f"), .file ("1"))])]))
      (some (.dir [(("d"), .file ("0"))])) false
      = ⟨some (.dir [(("d"), .file ("0"))]), true⟩ ∧
    (!false && memb ("d") (fileNames (some (.dir [(("d"), .file ("0"))])))) = true := by
  constructor
  · simp [syncDirs, syncItems, contentOf, fileNames, dirNames, fileNamesOf, dirNamesOf,
      entriesOf, childOf, lookupName, writeBack, setChild, mkdirAt, memb, isFileNode,
      isFileOpt, noFault]
  · rfl

/-- C1 amended: a source directory item is skipped exactly when
`overwrite` is false and its name is in `existing_files` (a same-named
target *file* exists); in every other situation — `overwrite=True`, a
collision with a target directory, or no collision — it proceeds to the
recursion step. -/
theorem claim_C1 (fault : List String → Bool) (path : List String) (ov broken : Bool)
    (exF exD : List String) (t : Option Node) (n : String) (cs rest : Entries) :
    syncItems fault path ov broken exF exD t ((n, .dir cs) :: rest) =
      if (!ov && memb n exF) = true then
        syncItems fault path ov broken exF exD t rest
      else
        (let r := syncItems fault (path ++ [n]) false (broken || isFileOpt t)
            (fileNames (childOf t n)) (dirNames (childOf t n)) (childOf t n) cs
         if r.ok then syncItems fault path ov broken exF exD (writeBack t n r.state) rest
         else ⟨writeBack t n r.state, false⟩) := by
  by_cases h : (!ov && memb n exF) = true
  · have hsk : (!ov && memb n exF || isFileNode (.dir cs) && memb n exD) = true := by
      simp [isFileNode, h]
    rw [syncItems_skip _ _ _ _ _ _ _ _ _ _ hsk]
    simp [h]
  · have h' := Bool.eq_false_iff.mpr h
    rw [syncItems_dir _ _ _ _ _ _ _ _ _ _ h']
    simp [h]

/-- Counterexample to C2: with `overwrite=True`, the nested file
`sub/f` of the source collides with the target's `sub/f` and is still
skipped (the recursive call runs with `overwrite=False`): the target
keeps the old bytes `"0"` instead of receiving `"1"` as the claim
demands. -/
theorem claim_C2_counterexample :
    syncDirs noFault ("s") (some (.dir [(("sub"), .dir [(("f"), .file ("1"))])]))
      (some (.dir [(("sub"), .dir [(("f"), .file ("0"))])])) true
      = ⟨some (.dir [(("sub"), .dir [(("f"), .file ("0"))])]), true⟩ ∧
    some (Node.dir [(("sub"), Node.dir [(("f"), Node.file ("0"))])]) ≠
      some (Node.dir [(("sub"), Node.dir [(("f"), Node.file ("1"))])]) := by
  constructor
  · simp [syncDirs, syncItems, contentOf, fileNames, dirNames, fileNamesOf, dirNamesOf,
      entriesOf, childOf, lookupName, writeBack, setChild, mkdirAt, memb, isFileNode,
      isFileOpt, noFault]
  · simp

/-- C2 amended: `overwrite=True` disables file-collision skipping only
for the items of the invoked frame itself (a file still skips when it
collides with a target *directory*), and every directory item recurses
with the literal `overwrite=False` — the flag is not forwarded — so at
depth two and below file collisions are skipped again. -/
theorem claim_C2 (fault : List String → Bool) (path : List String) (broken : Bool)
    (exF exD : List String) (t : Option Node) (n d : String) (cs rest : Entries) :
    (syncItems fault path true broken exF exD t ((n, .file d) :: rest) =
      if memb n exD = true then syncItems fault path true broken exF exD t rest
      else if (broken || isFileOpt t || fault path) = true then ⟨t, false⟩
      else if fault (path ++ [n]) = true then ⟨mkdirAt t, false⟩
      else syncItems fault path true broken exF exD
        (some (.dir (setChild (entriesOf (mkdirAt t)) n (.file d)))) rest) ∧
    (syncItems fault path true broken exF exD t ((n, .dir cs) :: rest) =
      (let r := syncItems fault (path ++ [n]) false (broken || isFileOpt t)
          (fileNames (childOf t n)) (dirNames (childOf t n)) (childOf t n) cs
       if r.ok then syncItems fault path true broken exF exD (writeBack t n r.state) rest
       else ⟨writeBack t n r.state, false⟩)) := by
  constructor
  · by_cases hD : memb n exD = true
    · have hsk : (!true && memb n exF || isFileNode (.file d) && memb n exD) = true := by
        simp [isFileNode, hD]
      rw [syncItems_skip _ _ _ _ _ _ _ _ _ _ hsk]
      simp [hD]
    · have hsk : (!true && memb n exF || isFileNode (.file d) && memb n exD) = false := by
        simp [isFileNode]
        exact Bool.eq_false_iff.mpr hD
      by_cases hmk : (broken || isFileOpt t || fault path) = true
      · rw [syncItems_file_mkdir_err _ _ _ _ _ _ _ _ _ _ hsk hmk]
        simp [hD, hmk]
      · have hmk' := Bool.eq_false_iff.mpr hmk
        by_cases hcp : fault (path ++ [n]) = true
        · rw [syncItems_file_copy_err _ _ _ _ _ _ _ _ _ _ hsk hmk' hcp]
          simp [hD, hmk, hcp]
        · have hcp' := Bool.eq_false_iff.mpr hcp
          rw [syncItems_file_copy _ _ _ _ _ _ _ _ _ _ hsk hmk' hcp']
          simp [hD, hmk, hcp]
  · have hsk2 : (!true && memb n exF) = false := by simp
    rw [syncItems_dir _ _ _ _ _ _ _ _ _ _ hsk2]

/-- Counterexample to C3: a source holding one *empty* directory `d`,
merged into a non-existent target, creates nothing at all — the target
still does not exist, rather than containing `d` as a structurally
identical copy would. -/
theorem claim_C3_counterexample :
    syncDirs noFault ("s") (some (.dir [(("d"), .dir [])])) none false = ⟨none, true⟩ ∧
    (none : Option Node) ≠ some (.dir [(("d"), .dir [])]) := by
  constructor
  · simp [syncDirs, syncItems, contentOf, fileNames, dirNames, fileNamesOf, dirNamesOf,
      entriesOf, childOf, lookupName, writeBack, setChild, mkdirAt, memb, isFileNode,
      isFileOpt, noFault]
  · simp

/-- C3 amended: merging a well-formed source tree into an empty or
non-existent target returns normally and produces exactly the source
with its file-less directories pruned (`pruneEntries`): files are copied
byte-identically at every depth, and a directory is materialised iff it
contains a file at some depth — directories with no file below them
(`mkdir` only ever runs right before a file copy) are not created. -/
theorem claim_C3 (es : Entries) (srcName : String) (ov : Bool)
    (hwf : wfEntries es = true) :
    syncDirs noFault srcName (some (.dir es)) none ov
      = ⟨extendDir none (pruneEntries es), true⟩ ∧
    syncDirs noFault srcName (some (.dir es)) (some (.dir [])) ov
      = ⟨extendDir (some (.dir [])) (pruneEntries es), true⟩ := by
  constructor
  · rw [syncDirs, contentOf]
    exact syncItems_fresh [] ov false _ _ none es rfl rfl rfl rfl hwf (fun m _ => rfl)
  · rw [syncDirs, contentOf]
    exact syncItems_fresh [] ov false _ _ (some (.dir [])) es rfl rfl rfl rfl hwf
      (fun m _ => rfl)

/-- Witness for C3: a source with one file `a`, one file-bearing
directory `sub/b` and one empty directory `e`, merged into a missing
target, yields exactly `a` and `sub/b` — the empty `e` is pruned. -/
theorem claim_C3_witness :
    wfEntries [(("a"), .file ("1")), (("sub"), .dir [(("b"), .file ("2"))]), (("e"), .dir [])]
      = true ∧
    syncDirs noFault ("s")
      (some (.dir [(("a"), .file ("1")), (("sub"), .dir [(("b"), .file ("2"))]),
        (("e"), .dir [])])) none false
      = ⟨some (.dir [(("a"), .file ("1")), (("sub"), .dir [(("b"), .file ("2"))])]), true⟩ := by
  have hwf : wfEntries
      [(("a"), .file ("1")), (("sub"), .dir [(("b"), .file ("2"))]), (("e"), .dir [])] = true := by
    simp [wfEntries, wfNode, memb, namesOf]
  refine ⟨hwf, ?_⟩
  have h := (claim_C3
    [(("a"), .file ("1")), (("sub"), .dir [(("b"), .file ("2"))]), (("e"), .dir [])]
    ("s") false hwf).1
  rw [h]
  simp [pruneEntries, pruneNode, extendDir]

/-- C7: fail-fast error propagation of `_sync_dirs`.  Part one: when the
byte copy of a non-skipped file item fails (after the items before it
were processed without error), the whole call raises (`ok = false`), the
state keeps everything already copied plus the directory the preceding
`mkdir` created — no rollback — and the items after the failing one do
not appear in the outcome at all (the result does not depend on `post`).
Part two: when the recursive call for a directory item raises, the
parent frame writes nothing further: it propagates the failure with the
partially merged child in place and the remaining siblings `post`
unprocessed, so the abort cascades through every ancestor frame.
Part three: when creating the target directory itself fails for a
non-skipped file item — an I/O fault at the frame's target path, the
target existing as a regular file, or a broken ancestor — the call
raises with the state exactly as the earlier items left it (nothing of
the failing item's work applied, nothing rolled back) and `post` again
unprocessed. -/
theorem claim_C7 (fault : List String → Bool) (path : List String) (ov broken : Bool)
    (exF exD : List String) (t : Option Node) (pre post : Entries) (n d : String)
    (cs : Entries) :
    ((syncItems fault path ov broken exF exD t pre).ok = true →
     (!ov && memb n exF || isFileNode (.file d) && memb n exD) = false →
     (broken || isFileOpt (syncItems fault path ov broken exF exD t pre).state
        || fault path) = false →
     fault (path ++ [n]) = true →
     syncItems fault path ov broken exF exD t (pre ++ (n, .file d) :: post) =
       ⟨mkdirAt (syncItems fault path ov broken exF exD t pre).state, false⟩) ∧
    ((syncItems fault path ov broken exF exD t pre).ok = true →
     (!ov && memb n exF) = false →
     (syncItems fault (path ++ [n]) false
        (broken || isFileOpt (syncItems fault path ov broken exF exD t pre).state)
        (fileNames (childOf (syncItems fault path ov broken exF exD t pre).state n))
        (dirNames (childOf (syncItems fault path ov broken exF exD t pre).state n))
        (childOf (syncItems fault path ov broken exF exD t pre).state n) cs).ok = false →
     syncItems fault path ov broken exF exD t (pre ++ (n, .dir cs) :: post) =
       ⟨writeBack (syncItems fault path ov broken exF exD t pre).state n
          (syncItems fault (path ++ [n]) false
            (broken || isFileOpt (syncItems fault path ov broken exF exD t pre).state)
            (fileNames (childOf (syncItems fault path ov broken exF exD t pre).state n))
            (dirNames (childOf (syncItems fault path ov broken exF exD t pre).state n))
            (childOf (syncItems fault path ov broken exF exD t pre).state n) cs).state,
        false⟩) ∧
    ((syncItems fault path ov broken exF exD t pre).ok = true →
     (!ov && memb n exF || isFileNode (.file d) && memb n exD) = false →
     (broken || isFileOpt (syncItems fault path ov broken exF exD t pre).state
        || fault path) = true →
     syncItems fault path ov broken exF exD t (pre ++ (n, .file d) :: post) =
       ⟨(syncItems fault path ov broken exF exD t pre).state, false⟩) := by
  refine ⟨?_, ?_, ?_⟩
  · intro hok hsk hmk hcp
    rw [syncItems_append]
    simp only [hok, if_true]
    exact syncItems_file_copy_err _ _ _ _ _ _ _ _ _ _ hsk hmk hcp
  · intro hok hsk2 hrerr
    rw [syncItems_append]
    simp only [hok, if_true]
    exact syncItems_dir_err _ _ _ _ _ _ _ _ _ _ hsk2 hrerr
  · intro hok hsk hmk
    rw [syncItems_append]
    simp only [hok, if_true]
    exact syncItems_file_mkdir_err _ _ _ _ _ _ _ _ _ _ hsk hmk

/-- Witness for C7 at two concrete runs.  First: sibling `a` is copied,
the byte copy of `x` faults, and sibling `b` is never processed — the
merge raises with `a` (and the created target directory) left in place.
Second: the creation of the target directory itself faults before any
item is copied — the merge raises with the target still missing and the
siblings unprocessed. -/
theorem claim_C7_witness :
    ((syncItems (fun p => decide (p = [("x")])) [] false false [] [] none
        [(("a"), .file ("1"))]).ok = true ∧
      (fun p => decide (p = [("x")])) ([] ++ [("x")]) = true) ∧
    (syncItems (fun p => decide (p = [("x")])) [] false false [] [] none
        ([(("a"), .file ("1"))] ++ (("x"), Node.file ("2")) :: [(("b"), .file ("3"))]) =
      ⟨some (.dir [(("a"), .file ("1"))]), false⟩) ∧
    ((fun p => decide (p = ([] : List String))) [] = true ∧
     syncItems (fun p => decide (p = ([] : List String))) [] false false [] [] none
        ([] ++ (("x"), Node.file ("2")) :: [(("b"), .file ("3"))]) = ⟨none, false⟩) := by
  have hpre : syncItems (fun p => decide (p = [("x")])) [] false false [] [] none
      [(("a"), .file ("1"))] = ⟨some (.dir [(("a"), .file ("1"))]), true⟩ := by
    simp [syncItems, memb, isFileNode, isFileOpt, mkdirAt, entriesOf, setChild]
  have h := (claim_C7 (fun p => decide (p = [("x")])) [] false false [] [] none
    [(("a"), .file ("1"))] [(("b"), .file ("3"))] ("x") ("2") []).1
    (by rw [hpre]) (by simp [memb, isFileNode]) (by rw [hpre]; simp [isFileOpt]) (by simp)
  have hpre2 : syncItems (fun p => decide (p = ([] : List String))) [] false false [] [] none
      ([] : Entries) = ⟨none, true⟩ := syncItems_nil _ _ _ _ _ _ _
  have h2 := (claim_C7 (fun p => decide (p = ([] : List String))) [] false false [] [] none
    [] [(("b"), .file ("3"))] ("x") ("2") []).2.2
    (by rw [hpre2]) (by simp [memb, isFileNode]) (by rw [hpre2]; decide)
  refine ⟨⟨?_, ?_⟩, ?_, ?_, ?_⟩
  · rw [hpre]
  · decide
  · rw [h, hpre]
    rfl
  · decide
  · rw [h2, hpre2]

/-- C5 amended: let the target directory hold a file `f` and the source
directory hold a top-level file `f`, with well-formed listings, and —
the amendment forced by the counterexample — no top-level source
*directory* named like an existing target *file* (such a collision makes
the `overwrite=True` merge raise inside the recursion before reaching
later items).  Then `overwrite=False` leaves the target's `f` with its
original bytes, and `overwrite=True` returns normally with the target's
`f` holding the source's bytes. -/
theorem claim_C5 (srcName f old new : String) (ses tes : Entries)
    (h1 : lookupName f tes = some (.file old))
    (h2 : (f, Node.file new) ∈ ses)
    (h3 : memb f (dirNamesOf tes) = false)
    (h4 : wfEntries ses = true)
    (h5 : ∀ p ∈ ses, isDirNode p.2 = true → isFileOpt (lookupName p.1 tes) = false) :
    (∃ tes1, (syncDirs noFault srcName (some (.dir ses)) (some (.dir tes)) false).state
        = some (.dir tes1) ∧ lookupName f tes1 = some (.file old)) ∧
    ((syncDirs noFault srcName (some (.dir ses)) (some (.dir tes)) true).ok = true ∧
     ∃ tes2, (syncDirs noFault srcName (some (.dir ses)) (some (.dir tes)) true).state
        = some (.dir tes2) ∧ lookupName f tes2 = some (.file new)) := by
  constructor
  · rw [syncDirs, contentOf]
    have hmemF : memb f (fileNames (some (.dir tes))) = true := by
      have hfo : isFileOpt (lookupName f tes) = true := by
        rw [h1]
        rfl
      exact memb_fileNamesOf_of_lookup_file tes f hfo
    obtain ⟨tes1, hs, hl⟩ := syncItems_preserves noFault [] false false
      (fileNames (some (.dir tes))) (dirNames (some (.dir tes))) ses tes f
      (fun p hp hpf => by simp [hmemF])
    exact ⟨tes1, hs, by rw [hl, h1]⟩
  · rw [syncDirs, contentOf]
    exact syncItems_true_replaces [] (fileNames (some (.dir tes)))
      (dirNames (some (.dir tes))) ses tes f new h4 h2 h3
      (fun p hp hpd => h5 p hp hpd)

/-- Counterexample to C5 as stated: source
`{a/: {x: "1"}, f: "new"}`, target `{a: "t", f: "old"}`,
`overwrite=True`.  The directory item `a` is not skipped (skipping
requires `overwrite=False` or a file item), so the call recurses into
the target *file* `a`; there the `mkdir` raises `FileExistsError`, the
merge aborts, and the later sibling `f` is never copied: the target's
`f` still holds `"old"`, not `"new"` as the claim requires for every
such source and target. -/
theorem claim_C5_counterexample :
    syncDirs noFault ("s")
      (some (.dir [(("a"), .dir [(("x"), .file ("1"))]), (("f"), .file ("new"))]))
      (some (.dir [(("a"), .file ("t")), (("f"), .file ("old"))])) true
      = ⟨some (.dir [(("a"), .file ("t")), (("f"), .file ("old"))]), false⟩ ∧
    lookupName ("f") [(("a"), .file ("t")), (("f"), .file ("old"))] = some (.file ("old")) ∧
    some (Node.file ("old")) ≠ some (Node.file ("new")) := by
  refine ⟨?_, rfl, by simp⟩
  simp [syncDirs, syncItems, contentOf, fileNames, dirNames, fileNamesOf, dirNamesOf,
      entriesOf, childOf, lookupName, writeBack, setChild, mkdirAt, memb, isFileNode,
      isFileOpt, noFault]

/-- Witness for C5: source `{f: "new"}` and target `{f: "old"}`; with
`overwrite=False` the target keeps `"old"`, with `overwrite=True` it
ends with `"new"`. -/
theorem claim_C5_witness :
    (lookupName ("f") [(("f"), Node.file ("old"))] = some (.file ("old")) ∧
     memb ("f") (dirNamesOf [(("f"), Node.file ("old"))]) = false ∧
     wfEntries [(("f"), Node.file ("new"))] = true) ∧
    (∃ tes1, (syncDirs noFault ("s") (some (.dir [(("f"), Node.file ("new"))]))
        (some (.dir [(("f"), Node.file ("old"))])) false).state = some (.dir tes1) ∧
      lookupName ("f") tes1 = some (.file ("old"))) ∧
    ((syncDirs noFault ("s") (some (.dir [(("f"), Node.file ("new"))]))
        (some (.dir [(("f"), Node.file ("old"))])) true).ok = true ∧
     ∃ tes2, (syncDirs noFault ("s") (some (.dir [(("f"), Node.file ("new"))]))
        (some (.dir [(("f"), Node.file ("old"))])) true).state = some (.dir tes2) ∧
      lookupName ("f") tes2 = some (.file ("new"))) := by
  refine ⟨⟨rfl, rfl, by simp [wfEntries, wfNode, memb, namesOf]⟩, ?_⟩
  refine claim_C5 ("s") ("f") ("old") ("new") [(("f"), Node.file ("new"))]
    [(("f"), Node.file ("old"))] rfl (List.mem_singleton.mpr rfl) rfl
    (by simp [wfEntries, wfNode, memb, namesOf]) ?_
  intro p hp hpd
  rw [List.mem_singleton.mp hp] at hpd
  simp [isDirNode] at hpd

end KedroPipeline
